import Mathlib

/-!
Verification of the hayaku project-scaffolding tool (k88hudson/hayaku).

This file gives a shallow embedding, in Lean 4, of the template resolution
and generation engine of hayaku, translated from the Rust sources:
  - src/env.rs        (canonical_env_key, build_context, prompt_for_env)
  - src/templating.rs (process_dest_path, render_from_template_file, create_project)
  - src/hayaku_context.rs (all_templates, parse_settings)
and proves, or refutes on concrete inputs, the behavioral claims of the
specification.

Modelling conventions:
  - Rust `HashMap`s are modelled as association lists; a map is any list whose
    key projection is duplicate-free, and map iteration order is an arbitrary
    list order (theorems quantify over it or are invariant under permutation).
  - `tera::Context` is modelled as an association list of `String` to
    `TeraValue` where `insert` overwrites an existing binding, exactly like
    `tera::Context::insert`.
  - File-system paths are modelled as lists of components (`List String`),
    matching `Path::components`; file contents are either valid UTF-8 text or
    an undecodable byte sequence, matching the contract of
    `std::fs::read_to_string`.
  - The interactive prompt surface (`cliclack`) and the template renderer
    (`tera::Tera::render_str`) are external collaborators: they enter the
    embedding as function parameters.
  - Rust `str` comparison (`Ord` on `String`, used by `sort`/`sort_by`) is
    byte-wise lexicographic on UTF-8, which coincides with code-point
    lexicographic order; it is embedded as the structural comparator `strLeB`
    below.
-/

namespace Hayaku

/-! ### Lexicographic string order (Rust `Ord for String`) -/

/-- Boolean lexicographic less-or-equal on char lists, by code point.
This is the order `Vec::<String>::sort` and `Ord::cmp` on `String` use in the
Rust source (byte-wise UTF-8 order equals code-point order). -/
def strLeB : List Char → List Char → Bool
  | [], _ => true
  | _ :: _, [] => false
  | a :: as, b :: bs => if a < b then true else if b < a then false else strLeB as bs

/-- Lexicographic less-or-equal on strings, as a proposition. -/
def strLe (a b : String) : Prop := strLeB a.data b.data = true

instance : DecidableRel strLe := fun a b => by unfold strLe; infer_instance

/-! ### Data model -/

/-- Enum `TemplateOrigin` from src/hayaku_context.rs. -/
inductive TemplateOrigin where
  | Local : TemplateOrigin
  | BuiltIn : TemplateOrigin
deriving DecidableEq, Repr

/-- Modelled from the spec: the `EnvVarConfig` enum (`VariableSpec` in the
spec, section 3).  Its defining Rust file is absent from src/ — both
src/config.rs and src/env.rs only import it from one another — so the three
variants are taken from the spec: `StringVar {prompt, default}`,
`ChoiceVar {prompt, choices, default}`, `BoolVar {prompt, default}`. -/
inductive EnvVarConfig where
  | string (prompt : String) (default : Option String) : EnvVarConfig
  | choices (prompt : String) (choices : List String) (default : Option String) : EnvVarConfig
  | bool (prompt : String) (default : Bool) : EnvVarConfig
deriving DecidableEq, Repr

/-- Structure `TemplateConfig` from src/config.rs (the same record appears as
`HayakuConfig` in src/env.rs and src/templating.rs).  The `env` map is an
association list standing for the Rust `HashMap<String, EnvVarConfig>`. -/
structure TemplateConfig where
  name : String
  display_name : Option String
  description : Option String
  author : Option String
  env : List (String × EnvVarConfig)
deriving DecidableEq, Repr

/-- Alias used by src/env.rs and src/templating.rs for the same structure. -/
abbrev HayakuConfig := TemplateConfig

/-- Structure `TemplateEntry` from src/hayaku_context.rs; `path` is kept abstract as a
string. -/
structure TemplateEntry where
  config : TemplateConfig
  path : String
  origin : TemplateOrigin
deriving DecidableEq, Repr

/-- The fragment of `tera::Value` (a serde_json value) that the engine
stores and reads: strings plus non-string scalars.  `value.as_str()` is
`asStr?` below; only string values respond to it. -/
inductive TeraValue where
  | str (s : String) : TeraValue
  | bool (b : Bool) : TeraValue
  | num (n : Int) : TeraValue
deriving DecidableEq, Repr

/-- Operation `tera::Value::as_str`: `some` exactly on string values. -/
def TeraValue.asStr? : TeraValue → Option String
  | .str s => some s
  | _ => none

/-- Type `tera::Context`, modelled as an association list. -/
abbrev TeraContext := List (String × TeraValue)

/-- Operation `tera::Context::insert`: binds `k` to `v`, overwriting any existing
binding of `k`. -/
def ctxInsert (k : String) (v : TeraValue) (ctx : TeraContext) : TeraContext :=
  (k, v) :: ctx.filter (fun p => p.1 != k)

/-- Operation `tera::Context::get`. -/
def ctxGet (k : String) (ctx : TeraContext) : Option TeraValue :=
  List.lookup k ctx

/-! ### src/env.rs -/

/-- The per-character step of `canonical_env_key` (src/env.rs lines 85-95):
ASCII-alphanumeric characters are ASCII-uppercased, every other character
becomes `'_'`.  `Char.toUpper` is exactly Rust's `to_ascii_uppercase` (it
shifts only `'a'..='z'`), and `Char.isAlphanum` is exactly
`is_ascii_alphanumeric`. -/
def canonChar (c : Char) : Char :=
  if c.isAlphanum then c.toUpper else '_'

/-- Function `canonical_env_key` from src/env.rs: `raw.chars().map(...).collect()`. -/
def canonical_env_key (raw : String) : String :=
  String.mk (raw.data.map canonChar)

/-- The loop body of `build_context` (src/env.rs lines 73-77): for one
collected pair, insert the raw key, then the canonical key, both bound to
the value. -/
def envInsertStep (c : TeraContext) (kv : String × String) : TeraContext :=
  ctxInsert (canonical_env_key kv.1) (.str kv.2) (ctxInsert kv.1 (.str kv.2) c)

/-- Function `build_context` from src/env.rs lines 64-83.  `env_values` is the
iteration of the collected `HashMap<String, String>` in some order.  The
insertion sequence mirrors the source exactly (reading the nesting
inside-out): `project_name`, `PROJECT_NAME`, then for each collected pair
the raw key followed by its canonical key, then `template_name` last.  No
`TEMPLATE_NAME` key is inserted anywhere. -/
def build_context (project_name : String) (config : HayakuConfig)
    (env_values : List (String × String)) : TeraContext :=
  ctxInsert "template_name" (.str config.name)
    (env_values.foldl envInsertStep
      (ctxInsert "PROJECT_NAME" (.str project_name)
        (ctxInsert "project_name" (.str project_name) [])))

/-- The loop body of `prompt_for_env` (src/env.rs lines 19-59): fetch the
key's declared spec from the map, obtain a value through the prompt surface
`ask`, record the value and the key.  The `.getD` supplies the
`expect("Key fetched from known iterator")` branch, which is unreachable
because every sorted key comes from `env` itself. -/
def promptStep (ask : String → EnvVarConfig → String) (config : HayakuConfig)
    (acc : List (String × String) × List String) (key : String) :
    List (String × String) × List String :=
  let env_cfg := (List.lookup key config.env).getD (.string "" none)
  (acc.1 ++ [(key, ask key env_cfg)], acc.2 ++ [key])

/-- Function `prompt_for_env` from src/env.rs lines 10-62.  The interactive prompt
surface (`cliclack::input/select/confirm`) is the external parameter `ask`,
called once per key with that key's declared spec.  The result is the
collected value map together with the sequence of keys prompted for, in
order. -/
def prompt_for_env (ask : String → EnvVarConfig → String) (config : HayakuConfig) :
    List (String × String) × List String :=
  if config.env.isEmpty then ([], [])
  else
    let keys := List.insertionSort strLe (config.env.map Prod.fst)
    keys.foldl (promptStep ask config) ([], [])

/-! ### src/templating.rs -/

/-- One component of `process_dest_path` (src/templating.rs lines 42-56):
a component of the exact form `[name]` (first character `'['`, last
character `']'`) is replaced by the string value of `context[name]` when the
context holds a string there; otherwise the component is kept verbatim.
`name` is the text strictly between the brackets, as in
`comp_str[1..len - 1]` (both brackets are one byte, so the byte slice is the
char slice). -/
def substComponent (ctx : TeraContext) (comp : String) : String :=
  if comp.data.head? = some '[' ∧ comp.data.getLast? = some ']' then
    let var_name := String.mk (comp.data.drop 1).dropLast
    match ctxGet var_name ctx with
    | some v =>
      match v.asStr? with
      | some s => s
      | none => comp
    | none => comp
  else comp

/-- Function `process_dest_path` from src/templating.rs: applies `substComponent` to
every component of the destination path. -/
def process_dest_path (ctx : TeraContext) (path : List String) : List String :=
  path.map (substComponent ctx)

/-- Rust `u8`-wise `to_ascii_lowercase` on a character. -/
def asciiLowerChar (c : Char) : Char :=
  if c.isUpper then Char.ofNat (c.toNat + 32) else c

/-- Operation `str::eq_ignore_ascii_case`. -/
def eqIgnoreAsciiCase (a b : List Char) : Bool :=
  a.map asciiLowerChar == b.map asciiLowerChar

/-- Operation `Path::extension` of a file name: the portion after the last `'.'`;
`none` when the name has no `'.'`, or when its only `'.'` is the leading
character of a hidden file. -/
def fileExtension (name : List Char) : Option (List Char) :=
  let extRev := name.reverse.takeWhile (fun c => c != '.')
  if extRev.length = name.length then none
  else if extRev.length + 1 = name.length then none
  else some extRev.reverse

/-- The `.tera` marker handling of src/templating.rs lines 66-73: when the
final component of the destination path has an extension equal to `tera`
ignoring ASCII case, `set_extension("")` truncates the name to its stem. -/
def stripTeraExtension (path : List String) : List String :=
  match path.getLast? with
  | none => path
  | some last =>
    match fileExtension last.data with
    | some ext =>
      if eqIgnoreAsciiCase ext "tera".data then
        path.dropLast ++ [String.mk (last.data.take (last.data.length - ext.length - 1))]
      else path
    | none => path

/-- A source file's content, by the contract of `std::fs::read_to_string`:
either valid UTF-8 carrying its decoded text, or an undecodable byte
sequence (on which `read_to_string` returns `Err`). -/
inductive FileContent where
  | utf8 (s : String) : FileContent
  | nonUtf8 (bytes : List Nat) : FileContent
deriving DecidableEq, Repr

/-- The error taxonomy the generation engine surfaces (spec section 7; in
the source every arm is an `anyhow::Error`). -/
inductive HayakuError where
  | ioError : HayakuError
  | renderError (cause : String) : HayakuError
  | configParse (path cause : String) : HayakuError
deriving DecidableEq, Repr

/-- Function `render_from_template_file` from src/templating.rs lines 58-91.  The
template renderer (`tera.render_str`) is the external parameter `render`.
The function processes the destination path (bracket substitution, then
`.tera` stripping), reads the file — failing with an I/O error when the
content is not UTF-8-decodable — renders the whole content, and on success
yields the final destination path together with the text that is written
there.  Directory creation and the physical write are side effects outside
the model. -/
def render_from_template_file (render : TeraContext → String → Except String String)
    (ctx : TeraContext) (destPath : List String) (content : FileContent) :
    Except HayakuError (List String × String) :=
  let dest := stripTeraExtension (process_dest_path ctx destPath)
  match content with
  | .nonUtf8 _ => .error .ioError
  | .utf8 contents =>
    match render ctx contents with
    | .error e => .error (.renderError e)
    | .ok rendered => .ok (dest, rendered)

/-- The per-file step of `create_project` (src/templating.rs lines 33-37):
the destination path handed to `render_from_template_file` is
`dest_dir.join(rel_path)`, i.e. the caller-supplied destination directory
components followed by the template-relative components. -/
def create_project_file (render : TeraContext → String → Except String String)
    (ctx : TeraContext) (destDir relPath : List String) (content : FileContent) :
    Except HayakuError (List String × String) :=
  render_from_template_file render ctx (destDir ++ relPath) content

/-- Modelled from the spec: the skip-templating sentinel line
(`// hayaku: skip-templating`, spec sections 4.4c and 8).  No such constant
exists in src/. -/
def sentinelLine : String := "// hayaku: skip-templating"

/-- Modelled from the spec: "read the file's first line" — the characters
before the first `'\n'`. -/
def firstLineChars : List Char → List Char
  | [] => []
  | c :: cs => if c = '\n' then [] else c :: firstLineChars cs

/-- Modelled from the spec: strip one trailing `'\r'` from a line. -/
def stripOneCR (l : List Char) : List Char :=
  if l.getLast? = some '\r' then l.dropLast else l

/-- Modelled from the spec: the file's first line after stripping one
trailing `'\r'`, the text the spec compares against `sentinelLine`. -/
def firstLineStripCR (s : String) : String :=
  String.mk (stripOneCR (firstLineChars s.data))

/-- Replace every occurrence of `pat` in a character list (fuelled so the
recursion is structural; the fuel is instantiated with the list length). -/
def substAux (pat rep : List Char) : Nat → List Char → List Char
  | _, [] => []
  | 0, cs => cs
  | fuel + 1, c :: cs =>
    if pat.isPrefixOf (c :: cs) then
      rep ++ substAux pat rep fuel (List.drop pat.length (c :: cs))
    else c :: substAux pat rep fuel cs

/-- Modelled from the spec: the external template renderer contract
(section 6, `render(templateText, context) -> text`), restricted to
templates whose only placeholder is `\x7b\x7b project_name \x7d\x7d`; it
substitutes the context's `project_name` string for each occurrence and
fails on an unresolved reference.  `tera` itself is an external crate, not
part of src/. -/
def modelRender (ctx : TeraContext) (s : String) : Except String String :=
  match ctxGet "project_name" ctx with
  | some (.str v) =>
    .ok (String.mk (substAux "\x7b\x7b project_name \x7d\x7d".data v.data s.data.length s.data))
  | _ => .error "Variable project_name not found"

/-! ### src/hayaku_context.rs -/

/-- The removal step inside `all_templates` (src/hayaku_context.rs lines
129-137): `position(|existing| existing.config.name == local.config.name)`
followed by `remove(pos)` deletes the first entry carrying the given name,
and leaves the list unchanged when there is none. -/
def removeFirstNamed (n : String) : List TemplateEntry → List TemplateEntry
  | [] => []
  | e :: es => if e.config.name = n then es else e :: removeFirstNamed n es

/-- The display-name-or-id sort key of the `all_templates` comparator
(src/hayaku_context.rs lines 143-145). -/
def sortKey (e : TemplateEntry) : String :=
  e.config.display_name.getD e.config.name

/-- The `sort_by` comparator of `all_templates` as a boolean
less-or-equal: `cmp a b != Greater`.  `(Local, BuiltIn)` compares Greater,
`(BuiltIn, Local)` compares Less, and two entries of equal origin compare by
`sortKey` lexicographically. -/
def entryLeB (a b : TemplateEntry) : Bool :=
  match a.origin, b.origin with
  | .Local, .BuiltIn => false
  | .BuiltIn, .Local => true
  | _, _ => strLeB (sortKey a).data (sortKey b).data

/-- The comparator as a relation, for sorting. -/
def entryLe (a b : TemplateEntry) : Prop := entryLeB a b = true

instance : DecidableRel entryLe := fun a b => by unfold entryLe; infer_instance

/-- The merge loop of `all_templates`: start from the built-in entries,
and for every local entry remove the like-named existing entry and append
the local one. -/
def combinedList (builtIn locals : List TemplateEntry) : List TemplateEntry :=
  locals.foldl (fun acc l => removeFirstNamed l.config.name acc ++ [l]) builtIn

/-- Function `all_templates` from src/hayaku_context.rs lines 126-150: the merge
loop followed by the comparator sort.  `builtIn` and `locals` are the value
iterations, in some order, of the two per-origin `HashMap`s (their key sets
are duplicate-free, keyed by `config.name`). -/
def all_templates (builtIn locals : List TemplateEntry) : List TemplateEntry :=
  List.insertionSort entryLe (combinedList builtIn locals)

/-- Structure `HayakuSettings` from src/hayaku_context.rs; `global_env` is an
association list standing for `Option<HashMap<String, toml::Value>>`, with
the scalar TOML values kept abstract as strings.  Rust's derived `Default`
is `global_env = None`. -/
structure HayakuSettings where
  global_env : Option (List (String × String))
deriving DecidableEq, Repr

instance : Inhabited HayakuSettings := ⟨⟨none⟩⟩

/-- Function `parse_settings` from src/hayaku_context.rs lines 91-104.  The
settings file state is `none` when the file does not exist and `some raw`
when it exists with readable content `raw`; `parseToml` is the external
`toml::from_str`.  A missing file yields the default settings; a present
file that fails to parse yields a `configParse` error naming the file and
the underlying cause. -/
def parse_settings (parseToml : String → Except String HayakuSettings)
    (settingsPath : String) (file : Option String) : Except HayakuError HayakuSettings :=
  match file with
  | some raw =>
    match parseToml raw with
    | .ok config => .ok config
    | .error e => .error (.configParse settingsPath e)
  | none => .ok default

/-! ### Order lemmas for the embedded comparators -/

theorem strLeB_total (a b : List Char) : strLeB a b = true ∨ strLeB b a = true := by
  induction a generalizing b with
  | nil => left; rfl
  | cons x xs ih =>
    cases b with
    | nil => right; rfl
    | cons y ys =>
      rcases lt_trichotomy x y with h | h | h
      · left; simp [strLeB, h]
      · subst h
        rcases ih ys with h2 | h2
        · left; simp [strLeB, lt_irrefl, h2]
        · right; simp [strLeB, lt_irrefl, h2]
      · right; simp [strLeB, h]

theorem strLeB_trans {a b c : List Char} (h1 : strLeB a b = true) (h2 : strLeB b c = true) :
    strLeB a c = true := by
  induction a generalizing b c with
  | nil => rfl
  | cons x xs ih =>
    cases b with
    | nil => simp [strLeB] at h1
    | cons y ys =>
      cases c with
      | nil => simp [strLeB] at h2
      | cons z zs =>
        simp only [strLeB] at h1 h2 ⊢
        by_cases hxy : x < y
        · have hyz : ¬ z < y := by
            intro hzy
            by_cases hyzlt : y < z
            · exact absurd hyzlt (lt_asymm hzy)
            · simp [hyzlt, hzy] at h2
          have hxz : x < z := by
            rcases lt_trichotomy y z with h | h | h
            · exact lt_trans hxy h
            · rwa [h] at hxy
            · exact absurd h hyz
          simp [hxz]
        · by_cases hyx : y < x
          · simp [hxy, hyx] at h1
          · have hxy2 : x = y := le_antisymm (not_lt.mp hyx) (not_lt.mp hxy)
            subst hxy2
            by_cases hyz : x < z
            · simp [hyz]
            · by_cases hzy : z < x
              · simp [hyz, hzy] at h2
              · simp [hyz, hzy] at h1 h2 ⊢
                exact ih h1 h2

theorem strLeB_antisymm {a b : List Char} (h1 : strLeB a b = true) (h2 : strLeB b a = true) :
    a = b := by
  induction a generalizing b with
  | nil =>
    cases b with
    | nil => rfl
    | cons y ys => simp [strLeB] at h2
  | cons x xs ih =>
    cases b with
    | nil => simp [strLeB] at h1
    | cons y ys =>
      simp only [strLeB] at h1 h2
      by_cases hxy : x < y
      · simp [lt_asymm hxy, hxy] at h2
      · by_cases hyx : y < x
        · simp [hxy, hyx] at h1
        · have hxy2 : x = y := le_antisymm (not_lt.mp hyx) (not_lt.mp hxy)
          subst hxy2
          simp [lt_irrefl] at h1 h2
          rw [ih h1 h2]

instance : IsTotal String strLe := ⟨fun a b => strLeB_total a.data b.data⟩

instance : IsTrans String strLe := ⟨fun _ _ _ => strLeB_trans⟩

instance : IsAntisymm String strLe :=
  ⟨fun a b h1 h2 => by
    cases a; cases b
    exact congrArg String.mk (strLeB_antisymm h1 h2)⟩

instance : IsTotal TemplateEntry entryLe := by
  constructor
  intro a b
  unfold entryLe entryLeB
  cases ha : a.origin <;> cases hb : b.origin <;> simp
  · exact strLeB_total _ _
  · exact strLeB_total _ _

instance : IsTrans TemplateEntry entryLe := by
  constructor
  intro a b c h1 h2
  unfold entryLe entryLeB at h1 h2 ⊢
  cases ha : a.origin <;> cases hb : b.origin <;> cases hc : c.origin <;>
    simp [ha, hb, hc] at h1 h2 ⊢ <;>
    exact strLeB_trans h1 h2

/-! ### Character lemmas for canonicalization -/

theorem isLower_iff_toNat (c : Char) : c.isLower = true ↔ 97 ≤ c.toNat ∧ c.toNat ≤ 122 := by
  simp [Char.isLower]
  exact ⟨fun h => ⟨h.1, h.2⟩, fun h => ⟨h.1, h.2⟩⟩

theorem isUpper_iff_toNat (c : Char) : c.isUpper = true ↔ 65 ≤ c.toNat ∧ c.toNat ≤ 90 := by
  simp [Char.isUpper]
  exact ⟨fun h => ⟨h.1, h.2⟩, fun h => ⟨h.1, h.2⟩⟩

theorem toNat_ofNat_valid (m : Nat) (h : m.isValidChar) : (Char.ofNat m).toNat = m := by
  unfold Char.ofNat
  rw [dif_pos h]
  rfl

theorem toUpper_of_lower {c : Char} (h : 97 ≤ c.toNat ∧ c.toNat ≤ 122) :
    c.toUpper = Char.ofNat (c.toNat - 32) := by
  unfold Char.toUpper
  rw [if_pos h]

theorem toUpper_of_not_lower {c : Char} (h : ¬(97 ≤ c.toNat ∧ c.toNat ≤ 122)) :
    c.toUpper = c := by
  unfold Char.toUpper
  rw [if_neg h]

theorem canonChar_idem (c : Char) : canonChar (canonChar c) = canonChar c := by
  by_cases h : c.isAlphanum
  · have hcanon : canonChar c = c.toUpper := by simp [canonChar, h]
    rw [hcanon]
    by_cases hl : c.isLower
    · have hb := (isLower_iff_toNat c).mp hl
      have hval : (c.toNat - 32).isValidChar := Or.inl (by omega)
      have hup := toUpper_of_lower hb
      have hd : (Char.ofNat (c.toNat - 32)).toNat = c.toNat - 32 := toNat_ofNat_valid _ hval
      have hdUpper : (c.toUpper).isUpper = true := by
        rw [hup]
        exact (isUpper_iff_toNat _).mpr (by omega)
      have hdAl : (c.toUpper).isAlphanum = true := by
        simp [Char.isAlphanum, Char.isAlpha, hdUpper]
      have hfix : (c.toUpper).toUpper = c.toUpper := by
        apply toUpper_of_not_lower
        rw [hup, hd]
        omega
      simp [canonChar, hdAl, hfix]
    · have hb : ¬(97 ≤ c.toNat ∧ c.toNat ≤ 122) := by
        intro hcon
        exact hl ((isLower_iff_toNat c).mpr hcon)
      have hfix := toUpper_of_not_lower hb
      rw [hfix]
      simp [canonChar, h, hfix]
  · have hcanon : canonChar c = '_' := by simp [canonChar, h]
    rw [hcanon]
    decide

theorem map_canonChar_idem (l : List Char) :
    (l.map canonChar).map canonChar = l.map canonChar := by
  induction l with
  | nil => rfl
  | cons c cs ih => simp [canonChar_idem, ih]

/-! ### Context lookup lemmas -/

theorem lookup_filter_ne {t k : String} (ctx : TeraContext) (h : t ≠ k) :
    List.lookup t (ctx.filter (fun p => p.1 != k)) = List.lookup t ctx := by
  induction ctx with
  | nil => rfl
  | cons e es ih =>
    obtain ⟨k1, v1⟩ := e
    by_cases he : k1 = k
    · subst he
      simp only [List.filter_cons, bne_self_eq_false, Bool.false_eq_true, if_false]
      rw [ih]
      have hbf : (t == k1) = false := beq_eq_false_iff_ne.mpr h
      simp [List.lookup, hbf]
    · simp only [List.filter_cons, bne_iff_ne, ne_eq, he, not_false_eq_true, if_true]
      by_cases hte : t = k1
      · subst hte
        simp [List.lookup]
      · have hbf : (t == k1) = false := beq_eq_false_iff_ne.mpr hte
        simp [List.lookup, hbf, ih]

theorem ctxGet_insert (t k : String) (v : TeraValue) (ctx : TeraContext) :
    ctxGet t (ctxInsert k v ctx) = if t = k then some v else ctxGet t ctx := by
  by_cases h : t = k
  · simp [ctxGet, ctxInsert, List.lookup, h]
  · have hne : (t == k) = false := by simp [h]
    simp [ctxGet, ctxInsert, List.lookup, hne, h, lookup_filter_ne _ h]

theorem ctxGet_insert_self (k : String) (v : TeraValue) (ctx : TeraContext) :
    ctxGet k (ctxInsert k v ctx) = some v := by
  simp [ctxGet_insert]

theorem ctxGet_insert_ne {t k : String} (v : TeraValue) (ctx : TeraContext) (h : t ≠ k) :
    ctxGet t (ctxInsert k v ctx) = ctxGet t ctx := by
  simp [ctxGet_insert, h]

/-! ### build_context lemmas -/

theorem envFold_frame (t : String) (env : List (String × String)) (ctx : TeraContext)
    (h : ∀ kv ∈ env, kv.1 ≠ t ∧ canonical_env_key kv.1 ≠ t) :
    ctxGet t (env.foldl envInsertStep ctx) = ctxGet t ctx := by
  induction env generalizing ctx with
  | nil => rfl
  | cons kv rest ih =>
    have hk := h kv (by simp)
    rw [List.foldl_cons, ih _ (fun kv2 hm => h kv2 (by simp [hm]))]
    unfold envInsertStep
    rw [ctxGet_insert_ne _ _ (Ne.symm hk.2), ctxGet_insert_ne _ _ (Ne.symm hk.1)]

theorem envFold_mem (env : List (String × String)) (ctx : TeraContext) (k v : String)
    (hmem : (k, v) ∈ env)
    (hnodup : (env.map Prod.fst).Nodup)
    (hdiff : canonical_env_key k ≠ k)
    (hcoll : ∀ k2 ∈ env.map Prod.fst, k2 ≠ k →
      k2 ≠ canonical_env_key k ∧ canonical_env_key k2 ≠ k ∧
        canonical_env_key k2 ≠ canonical_env_key k) :
    ctxGet k (env.foldl envInsertStep ctx) = some (.str v) ∧
    ctxGet (canonical_env_key k) (env.foldl envInsertStep ctx) = some (.str v) := by
  induction env generalizing ctx with
  | nil => cases hmem
  | cons kv rest ih =>
    rw [List.foldl_cons]
    rcases List.mem_cons.mp hmem with heq | hrest
    · subst heq
      rw [List.map_cons] at hnodup
      have hknotin : k ∉ rest.map Prod.fst := (List.nodup_cons.mp hnodup).1
      have hframe : ∀ kv2 ∈ rest, kv2.1 ≠ k ∧ canonical_env_key kv2.1 ≠ k := by
        intro kv2 hm
        have hkey : kv2.1 ∈ rest.map Prod.fst := List.mem_map_of_mem _ hm
        have hne : kv2.1 ≠ k := fun he => hknotin (he ▸ hkey)
        exact ⟨hne, (hcoll kv2.1 (by simp [hkey]) hne).2.1⟩
      have hframeC : ∀ kv2 ∈ rest, kv2.1 ≠ canonical_env_key k ∧
          canonical_env_key kv2.1 ≠ canonical_env_key k := by
        intro kv2 hm
        have hkey : kv2.1 ∈ rest.map Prod.fst := List.mem_map_of_mem _ hm
        have hne : kv2.1 ≠ k := fun he => hknotin (he ▸ hkey)
        exact ⟨(hcoll kv2.1 (by simp [hkey]) hne).1, (hcoll kv2.1 (by simp [hkey]) hne).2.2⟩
      constructor
      · rw [envFold_frame k rest _ hframe]
        unfold envInsertStep
        rw [ctxGet_insert_ne _ _ (Ne.symm hdiff), ctxGet_insert_self]
      · rw [envFold_frame (canonical_env_key k) rest _ hframeC]
        unfold envInsertStep
        rw [ctxGet_insert_self]
    · rw [List.map_cons] at hnodup
      have hnodup2 : (rest.map Prod.fst).Nodup := (List.nodup_cons.mp hnodup).2
      have hcoll2 : ∀ k2 ∈ rest.map Prod.fst, k2 ≠ k →
          k2 ≠ canonical_env_key k ∧ canonical_env_key k2 ≠ k ∧
            canonical_env_key k2 ≠ canonical_env_key k := by
        intro k2 hm hne
        exact hcoll k2 (by simp [hm]) hne
      exact ih _ hrest hnodup2 hcoll2

/-! ### prompt_for_env lemmas -/

theorem promptFold_trace (ask : String → EnvVarConfig → String) (config : HayakuConfig)
    (keys : List String) (acc : List (String × String) × List String) :
    (keys.foldl (promptStep ask config) acc).2 = acc.2 ++ keys := by
  induction keys generalizing acc with
  | nil => simp
  | cons x xs ih => simp [promptStep, ih]

theorem prompt_for_env_trace (ask : String → EnvVarConfig → String) (config : HayakuConfig) :
    (prompt_for_env ask config).2 = List.insertionSort strLe (config.env.map Prod.fst) := by
  unfold prompt_for_env
  by_cases h : config.env.isEmpty
  · have : config.env = [] := List.isEmpty_iff.mp h
    simp [h, this]
  · simp [h, promptFold_trace]

/-! ### Merge lemmas for all_templates -/

theorem removeFirstNamed_sublist (n : String) (xs : List TemplateEntry) :
    (removeFirstNamed n xs).Sublist xs := by
  induction xs with
  | nil => simp [removeFirstNamed]
  | cons e es ih =>
    unfold removeFirstNamed
    by_cases h : e.config.name = n
    · simp [h]
    · simpa [h] using ih.cons₂ e

theorem removeFirstNamed_of_not_mem {n : String} {xs : List TemplateEntry}
    (h : n ∉ xs.map (fun e => e.config.name)) : removeFirstNamed n xs = xs := by
  induction xs with
  | nil => rfl
  | cons e es ih =>
    simp only [List.map_cons, List.mem_cons] at h
    push_neg at h
    unfold removeFirstNamed
    rw [if_neg (fun he => h.1 he.symm), ih h.2]

theorem removeFirstNamed_append_single {n : String} {r : TemplateEntry}
    (xs : List TemplateEntry) (h : r.config.name ≠ n) :
    removeFirstNamed n (xs ++ [r]) = removeFirstNamed n xs ++ [r] := by
  induction xs with
  | nil => simp [removeFirstNamed, h]
  | cons e es ih =>
    unfold removeFirstNamed
    by_cases he : e.config.name = n
    · simp [he]
    · simp [he, ih]

theorem removeFirstNamed_eq_filter {n : String} {xs : List TemplateEntry}
    (h : (xs.map (fun e => e.config.name)).Nodup) :
    removeFirstNamed n xs = xs.filter (fun e => e.config.name != n) := by
  induction xs with
  | nil => rfl
  | cons e es ih =>
    rw [List.map_cons, List.nodup_cons] at h
    unfold removeFirstNamed
    by_cases he : e.config.name = n
    · subst he
      rw [if_pos rfl, List.filter_cons, if_neg (by simp)]
      rw [(List.filter_eq_self).mpr]
      intro a ha
      have : a.config.name ∈ es.map (fun e => e.config.name) := List.mem_map_of_mem _ ha
      simp only [bne_iff_ne, ne_eq]
      intro hcon
      exact h.1 (hcon ▸ this)
    · rw [if_neg he, List.filter_cons, if_pos (by simp [he]), ih h.2]

/-- The merge loop with the append of the local entry dropped: only the
removals, used to reach a closed form for `combinedList`. -/
def removeAll (b : List TemplateEntry) (locals : List TemplateEntry) : List TemplateEntry :=
  locals.foldl (fun acc l => removeFirstNamed l.config.name acc) b

theorem removeAll_append_single {r : TemplateEntry} (locals : List TemplateEntry)
    (X : List TemplateEntry) (h : r.config.name ∉ locals.map (fun e => e.config.name)) :
    removeAll (X ++ [r]) locals = removeAll X locals ++ [r] := by
  induction locals generalizing X with
  | nil => rfl
  | cons l rest ih =>
    simp only [List.map_cons, List.mem_cons] at h
    push_neg at h
    unfold removeAll
    rw [List.foldl_cons, List.foldl_cons]
    rw [removeFirstNamed_append_single X (fun he => h.1 he)]
    exact ih _ h.2

theorem combinedList_closed_form₁ (b : List TemplateEntry) (locals : List TemplateEntry)
    (h : (locals.map (fun e => e.config.name)).Nodup) :
    combinedList b locals = removeAll b locals ++ locals := by
  induction locals generalizing b with
  | nil => simp [combinedList, removeAll]
  | cons l rest ih =>
    rw [List.map_cons, List.nodup_cons] at h
    unfold combinedList removeAll
    rw [List.foldl_cons, List.foldl_cons]
    have step : combinedList (removeFirstNamed l.config.name b ++ [l]) rest =
        removeAll (removeFirstNamed l.config.name b ++ [l]) rest ++ rest := ih _ h.2
    have hsingle := removeAll_append_single rest (removeFirstNamed l.config.name b) h.1
    unfold combinedList removeAll at step hsingle
    rw [step, hsingle]
    simp

theorem removeAll_eq_filter (locals : List TemplateEntry) (b : List TemplateEntry)
    (h : (b.map (fun e => e.config.name)).Nodup) :
    removeAll b locals =
      b.filter (fun e => locals.all (fun l => l.config.name != e.config.name)) := by
  induction locals generalizing b with
  | nil => simp [removeAll]
  | cons l rest ih =>
    unfold removeAll
    rw [List.foldl_cons]
    have hsub : ((removeFirstNamed l.config.name b).map (fun e => e.config.name)).Nodup :=
      h.sublist ((removeFirstNamed_sublist _ _).map _)
    have step := ih (removeFirstNamed l.config.name b) hsub
    unfold removeAll at step
    rw [step, removeFirstNamed_eq_filter h, List.filter_filter]
    apply List.filter_congr
    intro e _
    simp only [List.all_cons]
    have hne : (e.config.name != l.config.name) = (l.config.name != e.config.name) := by
      by_cases hq : e.config.name = l.config.name
      · rw [hq]
      · rw [bne_iff_ne.mpr hq, bne_iff_ne.mpr (Ne.symm hq)]
    rw [Bool.and_comm, hne]

theorem combinedList_closed_form (b : List TemplateEntry) (locals : List TemplateEntry)
    (hb : (b.map (fun e => e.config.name)).Nodup)
    (hl : (locals.map (fun e => e.config.name)).Nodup) :
    combinedList b locals =
      b.filter (fun e => locals.all (fun l => l.config.name != e.config.name)) ++ locals := by
  rw [combinedList_closed_form₁ b locals hl, removeAll_eq_filter locals b hb]

theorem all_bne_eq_not_any_beq (e : TemplateEntry) (l : List TemplateEntry) :
    (l.all (fun l2 => l2.config.name != e.config.name)) =
      !(l.any (fun l2 => l2.config.name == e.config.name)) := by
  induction l with
  | nil => rfl
  | cons x xs ih =>
    simp only [List.all_cons, List.any_cons, Bool.not_or, ih]
    rfl

theorem length_filter_not_add (p : TemplateEntry → Bool) (l : List TemplateEntry) :
    (l.filter (fun a => !(p a))).length + (l.filter p).length = l.length := by
  induction l with
  | nil => rfl
  | cons e es ih =>
    by_cases h : p e
    · simp [List.filter_cons, h, ← ih]
      omega
    · have hb : p e = false := by simpa using h
      simp [List.filter_cons, hb, ← ih]
      omega

/-! ### Concrete fixtures for counterexamples and witnesses -/

/-- A minimal template configuration with no declared variables. -/
def cfg₀ : HayakuConfig :=
  { name := "sample", display_name := none, description := none, author := none, env := [] }

/-- A template configuration declaring two string variables (in unsorted
association-list order). -/
def cfgW : HayakuConfig :=
  { name := "w", display_name := none, description := none, author := none,
    env := [("crate_type", .string "Crate type" none), ("author_name", .string "Author" none)] }

/-- The same configuration as `cfgW` with the variable map iterated in the
opposite order. -/
def cfgW2 : HayakuConfig :=
  { name := "w", display_name := none, description := none, author := none,
    env := [("author_name", .string "Author" none), ("crate_type", .string "Crate type" none)] }

/-- A scripted prompt provider answering every prompt with a fixed value. -/
def askW : String → EnvVarConfig → String := fun _ _ => "answer"

/-- A concrete stand-in for `toml::from_str` on settings: accepts one fixed
document and rejects everything else with a fixed diagnostic. -/
def parseTomlW : String → Except String HayakuSettings :=
  fun raw => if raw = "good" then .ok { global_env := some [] } else .error "expected a table"

/-- A template configuration carrying only a name. -/
def tcfg (n : String) : TemplateConfig :=
  { name := n, display_name := none, description := none, author := none, env := [] }

/-- A built-in catalog entry named `rust`. -/
def entB1 : TemplateEntry := { config := tcfg "rust", path := "/builtin/rust", origin := .BuiltIn }

/-- A built-in catalog entry named `node`. -/
def entB2 : TemplateEntry := { config := tcfg "node", path := "/builtin/node", origin := .BuiltIn }

/-- A local catalog entry also named `rust`, overriding `entB1`. -/
def entL1 : TemplateEntry := { config := tcfg "rust", path := "/local/rust", origin := .Local }

/-! ### Claim theorems -/

/-- Claim C7 (confirmed): `canonical_env_key` is total on strings (it is a
Lean function) and idempotent, and maps `"crate_type"` to `"CRATE_TYPE"`
and `"with-hyphen"` to `"WITH_HYPHEN"`. -/
theorem canonical_env_key_idempotent_and_examples :
    (∀ k : String, canonical_env_key (canonical_env_key k) = canonical_env_key k) ∧
    canonical_env_key "crate_type" = "CRATE_TYPE" ∧
    canonical_env_key "with-hyphen" = "WITH_HYPHEN" := by
  refine ⟨fun k => ?_, by decide, by decide⟩
  exact congrArg String.mk (map_canonChar_idem k.data)

/-- Claim C9 (confirmed): `parse_settings` returns the default settings
value, not an error, when the settings file does not exist; and it returns
a `configParse` error naming the file and the underlying cause exactly when
the file exists but fails to parse. -/
theorem parse_settings_spec :
    ∀ (parseToml : String → Except String HayakuSettings) (path : String),
      parse_settings parseToml path none = .ok default ∧
      (∀ raw s, parseToml raw = .ok s → parse_settings parseToml path (some raw) = .ok s) ∧
      (∀ raw e, parseToml raw = .error e →
        parse_settings parseToml path (some raw) = .error (.configParse path e)) ∧
      (∀ file, (∃ err, parse_settings parseToml path file = .error err) ↔
        (∃ raw e, file = some raw ∧ parseToml raw = .error e)) := by
  intro p path
  refine ⟨rfl, ?_, ?_, ?_⟩
  · intro raw s h
    simp [parse_settings, h]
  · intro raw e h
    simp [parse_settings, h]
  · intro file
    constructor
    · rintro ⟨err, herr⟩
      cases file with
      | none => simp [parse_settings] at herr
      | some raw =>
        cases hp : p raw with
        | ok s => simp [parse_settings, hp] at herr
        | error e => exact ⟨raw, e, rfl, hp⟩
    · rintro ⟨raw, e, hfile, hp⟩
      subst hfile
      exact ⟨.configParse path e, by simp [parse_settings, hp]⟩

/-- Witness for C9: the spec theorem applied to a concrete parser, a
concrete path and a concrete unparsable document. -/
theorem parse_settings_spec_witness :
    parse_settings parseTomlW "hayaku.settings.toml" (some "x = [") =
      Except.error (.configParse "hayaku.settings.toml" "expected a table") := by
  exact (parse_settings_spec parseTomlW "hayaku.settings.toml").2.2.1
    "x = [" "expected a table" rfl

/-- Claim C2 counterexample: the claim says a non-UTF-8 source file is
copied through byte-for-byte and the run does not fail; on the code,
`fs::read_to_string` propagates an error for such a file — even with a
`.tera` marker extension on the path — so the run fails instead of writing
anything. -/
theorem nonUtf8_file_fails_run :
    render_from_template_file modelRender (build_context "demo" cfg₀ [])
        ["dest", "asset.bin.tera"] (.nonUtf8 [255, 254, 0]) =
      Except.error HayakuError.ioError := by
  rfl

/-- Claim C2 amended (the nearby true statement): for every renderer,
context, destination path — marker extension or not — and non-UTF-8 byte
content, the run fails with an I/O error; the bytes are never copied
through. -/
theorem nonUtf8_file_yields_ioError :
    ∀ (render : TeraContext → String → Except String String) (ctx : TeraContext)
      (destPath : List String) (bytes : List Nat),
      render_from_template_file render ctx destPath (.nonUtf8 bytes) =
        Except.error HayakuError.ioError := by
  intro render ctx destPath bytes
  rfl

/-- Claim C10 (confirmed): bracketed path-segment substitution applies to
every component of the full joined destination path — `process_dest_path`
distributes over the `dest_dir.join(rel_path)` append used by
`create_project_file` — and a `[name]` segment is replaced exactly when the
context maps `name` to a string value; an absent name or a non-string value
leaves the segment literal, brackets included. -/
theorem process_dest_path_spec :
    ∀ (ctx : TeraContext) (destDir relPath : List String) (comp name s : String),
      (process_dest_path ctx (destDir ++ relPath) =
        process_dest_path ctx destDir ++ process_dest_path ctx relPath) ∧
      (comp.data.head? = some '[' → comp.data.getLast? = some ']' →
        name = String.mk ((comp.data.drop 1).dropLast) →
        ((ctxGet name ctx = some (.str s) → substComponent ctx comp = s) ∧
         (ctxGet name ctx = none → substComponent ctx comp = comp) ∧
         (∀ v, ctxGet name ctx = some v → v.asStr? = none →
            substComponent ctx comp = comp))) ∧
      (¬(comp.data.head? = some '[' ∧ comp.data.getLast? = some ']') →
        substComponent ctx comp = comp) := by
  intro ctx destDir relPath comp name s
  refine ⟨List.map_append _ _ _, ?_, ?_⟩
  · intro h1 h2 hname
    subst hname
    refine ⟨?_, ?_, ?_⟩
    · intro hget
      simp only [List.drop_one] at hget
      simp [substComponent, h1, h2, hget, TeraValue.asStr?]
    · intro hget
      simp only [List.drop_one] at hget
      simp [substComponent, h1, h2, hget]
    · intro v hget hstr
      simp only [List.drop_one] at hget
      simp [substComponent, h1, h2, hget, hstr]
  · intro h
    simp [substComponent, h]

/-- Witness for C10: a bracketed segment resolved from a concrete context,
and an unresolved one left literal. -/
theorem process_dest_path_spec_witness :
    substComponent (build_context "demo" cfg₀ []) "[PROJECT_NAME]" = "demo" ∧
    substComponent (build_context "demo" cfg₀ []) "[missing]" = "[missing]" := by
  constructor
  · exact ((process_dest_path_spec (build_context "demo" cfg₀ []) [] []
      "[PROJECT_NAME]" "PROJECT_NAME" "demo").2.1
        (by decide) (by decide) (by decide)).1 (by decide)
  · exact (((process_dest_path_spec (build_context "demo" cfg₀ []) [] []
      "[missing]" "missing" "demo").2.1
        (by decide) (by decide) (by decide)).2.1 (by decide))

/-- Claim C1 counterexample: a file whose first line is exactly the
sentinel (`firstLineStripCR` of it equals `sentinelLine`) is NOT copied
byte-identical: the engine pipes it through the renderer unconditionally,
so the placeholder on its second line is substituted and the output
differs from the source content. -/
theorem sentinel_file_still_rendered :
    firstLineStripCR "// hayaku: skip-templating\nname = \x7b\x7b project_name \x7d\x7d\n" =
      sentinelLine ∧
    render_from_template_file modelRender (build_context "demo" cfg₀ [])
        ["out", "config.toml"]
        (.utf8 "// hayaku: skip-templating\nname = \x7b\x7b project_name \x7d\x7d\n") =
      Except.ok (["out", "config.toml"], "// hayaku: skip-templating\nname = demo\n") ∧
    ("// hayaku: skip-templating\nname = demo\n" : String) ≠
      "// hayaku: skip-templating\nname = \x7b\x7b project_name \x7d\x7d\n" := by
  refine ⟨by decide, rfl, by decide⟩

/-- Claim C1 amended (the nearby true statement): there is no
skip-templating directive.  Every UTF-8-decodable file — whether or not its
first line is the sentinel, and whether or not the sentinel text appears
with the comment prefix — is rendered normally: the written content is
exactly the renderer's output on the full file content. -/
theorem utf8_files_always_rendered :
    ∀ (render : TeraContext → String → Except String String) (ctx : TeraContext)
      (destPath : List String) (s r : String),
      render ctx s = .ok r →
      render_from_template_file render ctx destPath (.utf8 s) =
        Except.ok (stripTeraExtension (process_dest_path ctx destPath), r) := by
  intro render ctx destPath s r h
  simp [render_from_template_file, h]

/-- Witness for the amended C1: the model renderer applied to a file whose
first line is exactly the sentinel; rendering still happens. -/
theorem utf8_files_always_rendered_witness :
    render_from_template_file modelRender (build_context "demo" cfg₀ [])
        ["out", "readme.md"]
        (.utf8 "// hayaku: skip-templating\nhello \x7b\x7b project_name \x7d\x7d") =
      Except.ok (["out", "readme.md"], "// hayaku: skip-templating\nhello demo") := by
  exact utf8_files_always_rendered modelRender (build_context "demo" cfg₀ [])
    ["out", "readme.md"] "// hayaku: skip-templating\nhello \x7b\x7b project_name \x7d\x7d"
    "// hayaku: skip-templating\nhello demo" rfl

/-- Claim C3 counterexample: `build_context` does not treat the reserved
keys as protected — a collected variable whose raw key is `project_name`
overwrites the reserved binding — and the key `TEMPLATE_NAME` is never
inserted at all. -/
theorem reserved_keys_not_guarded :
    ctxGet "project_name" (build_context "demo" cfg₀ [("project_name", "evil")]) =
      some (TeraValue.str "evil") ∧
    some (TeraValue.str "evil") ≠ some (TeraValue.str "demo") ∧
    ctxGet "TEMPLATE_NAME" (build_context "demo" cfg₀ []) = none := by
  refine ⟨by decide, by decide, by decide⟩

/-- Claim C3 amended (the nearby true statement): `build_context` maps
`template_name` to the template name unconditionally (it is inserted last,
so no collected variable can overwrite it); it maps `project_name` and
`PROJECT_NAME` to the project name, and leaves `TEMPLATE_NAME` absent,
provided no collected variable's raw or canonical key collides with those
literal keys — the implementation has no guard, so the reservation only
holds under that hypothesis. -/
theorem build_context_reserved_keys :
    ∀ (pn : String) (cfg : HayakuConfig) (env : List (String × String)),
      ctxGet "template_name" (build_context pn cfg env) = some (.str cfg.name) ∧
      ((∀ k ∈ env.map Prod.fst,
          k ≠ "project_name" ∧ k ≠ "PROJECT_NAME" ∧ k ≠ "TEMPLATE_NAME" ∧
          canonical_env_key k ≠ "project_name" ∧ canonical_env_key k ≠ "PROJECT_NAME" ∧
          canonical_env_key k ≠ "TEMPLATE_NAME") →
        ctxGet "project_name" (build_context pn cfg env) = some (.str pn) ∧
        ctxGet "PROJECT_NAME" (build_context pn cfg env) = some (.str pn) ∧
        ctxGet "TEMPLATE_NAME" (build_context pn cfg env) = none) := by
  intro pn cfg env
  constructor
  · unfold build_context
    rw [ctxGet_insert_self]
  · intro h
    have hframe : ∀ t : String,
        (∀ k ∈ env.map Prod.fst, k ≠ t ∧ canonical_env_key k ≠ t) →
        ∀ ctx, ctxGet t (env.foldl envInsertStep ctx) = ctxGet t ctx := by
      intro t ht ctx
      exact envFold_frame t env ctx
        (fun kv hm => ht kv.1 (List.mem_map_of_mem _ hm))
    unfold build_context
    refine ⟨?_, ?_, ?_⟩
    · rw [ctxGet_insert_ne _ _ (by decide),
        hframe "project_name" (fun k hk => ⟨(h k hk).1, (h k hk).2.2.2.1⟩) _,
        ctxGet_insert_ne _ _ (by decide), ctxGet_insert_self]
    · rw [ctxGet_insert_ne _ _ (by decide),
        hframe "PROJECT_NAME" (fun k hk => ⟨(h k hk).2.1, (h k hk).2.2.2.2.1⟩) _,
        ctxGet_insert_self]
    · rw [ctxGet_insert_ne _ _ (by decide),
        hframe "TEMPLATE_NAME" (fun k hk => ⟨(h k hk).2.2.1, (h k hk).2.2.2.2.2⟩) _,
        ctxGet_insert_ne _ _ (by decide), ctxGet_insert_ne _ _ (by decide)]
      rfl

/-- Witness for the amended C3: a collision-free collected variable leaves
the reserved bindings intact and `TEMPLATE_NAME` absent. -/
theorem build_context_reserved_keys_witness :
    ctxGet "project_name" (build_context "demo" cfg₀ [("crate_type", "bin")]) =
      some (TeraValue.str "demo") ∧
    ctxGet "TEMPLATE_NAME" (build_context "demo" cfg₀ [("crate_type", "bin")]) = none := by
  have h := (build_context_reserved_keys "demo" cfg₀ [("crate_type", "bin")]).2 (by decide)
  exact ⟨h.1, h.2.2⟩

/-- Claim C4 counterexample: for the collected variable `with-hyphen`
(whose canonical form `WITH_HYPHEN` differs from it), the context still
contains the raw key — the claim says the raw key is absent. -/
theorem raw_key_retained :
    ctxGet "with-hyphen" (build_context "demo" cfg₀ [("with-hyphen", "v1")]) =
      some (TeraValue.str "v1") ∧
    some (TeraValue.str "v1") ≠ (none : Option TeraValue) := by
  refine ⟨by decide, by decide⟩

/-- Claim C4 amended (the nearby true statement): for a collected variable
with raw key `k` whose canonical form differs, the context contains BOTH
the canonical key and the raw key, each mapped to the variable's value —
the loop inserts the raw key first and the canonical key right after —
provided no other variable or the final `template_name` insertion collides
with either key. -/
theorem build_context_raw_and_canonical :
    ∀ (pn : String) (cfg : HayakuConfig) (env : List (String × String)) (k v : String),
      (k, v) ∈ env →
      (env.map Prod.fst).Nodup →
      canonical_env_key k ≠ k →
      k ≠ "template_name" →
      canonical_env_key k ≠ "template_name" →
      (∀ k2 ∈ env.map Prod.fst, k2 ≠ k →
        k2 ≠ canonical_env_key k ∧ canonical_env_key k2 ≠ k ∧
          canonical_env_key k2 ≠ canonical_env_key k) →
      ctxGet k (build_context pn cfg env) = some (.str v) ∧
      ctxGet (canonical_env_key k) (build_context pn cfg env) = some (.str v) := by
  intro pn cfg env k v hmem hnodup hdiff ht hct hcoll
  unfold build_context
  rw [ctxGet_insert_ne _ _ ht, ctxGet_insert_ne _ _ hct]
  exact envFold_mem env _ k v hmem hnodup hdiff hcoll

/-- Witness for the amended C4: both `with-hyphen` and `WITH_HYPHEN` are
bound to the collected value. -/
theorem build_context_raw_and_canonical_witness :
    ctxGet "with-hyphen" (build_context "demo" cfg₀ [("with-hyphen", "lib")]) =
      some (TeraValue.str "lib") ∧
    ctxGet "WITH_HYPHEN" (build_context "demo" cfg₀ [("with-hyphen", "lib")]) =
      some (TeraValue.str "lib") := by
  have h := build_context_raw_and_canonical "demo" cfg₀ [("with-hyphen", "lib")]
    "with-hyphen" "lib" (by decide) (by decide) (by decide) (by decide) (by decide)
    (by decide)
  refine ⟨h.1, ?_⟩
  have hc : canonical_env_key "with-hyphen" = "WITH_HYPHEN" := by decide
  rw [← hc]
  exact h.2

/-- Claim C8 (confirmed): variable collection consults the prompt surface
once per declared variable, in the lexicographically sorted order of the
raw keys, independently of the underlying map's iteration order: the
prompt trace is sorted, is a permutation of the declared keys (hence, with
the map's duplicate-free keys, each key is prompted exactly once), and is
identical for any two iteration orders of the same map. -/
theorem prompt_for_env_sorted_once :
    ∀ (ask : String → EnvVarConfig → String) (config : HayakuConfig),
      List.Sorted strLe (prompt_for_env ask config).2 ∧
      ((prompt_for_env ask config).2).Perm (config.env.map Prod.fst) ∧
      ((config.env.map Prod.fst).Nodup →
        ∀ k ∈ config.env.map Prod.fst, ((prompt_for_env ask config).2).count k = 1) ∧
      (∀ cfg2 : HayakuConfig, cfg2.env.Perm config.env →
        (prompt_for_env ask cfg2).2 = (prompt_for_env ask config).2) := by
  intro ask config
  refine ⟨?_, ?_, ?_, ?_⟩
  · rw [prompt_for_env_trace]
    exact List.sorted_insertionSort strLe _
  · rw [prompt_for_env_trace]
    exact List.perm_insertionSort strLe _
  · intro hnodup k hk
    rw [prompt_for_env_trace]
    rw [(List.perm_insertionSort strLe (config.env.map Prod.fst)).count_eq]
    exact List.count_eq_one_of_mem hnodup hk
  · intro cfg2 hperm
    rw [prompt_for_env_trace, prompt_for_env_trace]
    exact List.eq_of_perm_of_sorted
      ((List.perm_insertionSort strLe _).trans
        ((hperm.map Prod.fst).trans (List.perm_insertionSort strLe _).symm))
      (List.sorted_insertionSort strLe _)
      (List.sorted_insertionSort strLe _)

/-- Witness for C8: two iteration orders of the same two-variable map give
the same trace, and a declared key is prompted exactly once. -/
theorem prompt_for_env_sorted_once_witness :
    (prompt_for_env askW cfgW).2.count "author_name" = 1 ∧
    (prompt_for_env askW cfgW2).2 = (prompt_for_env askW cfgW).2 := by
  have h := prompt_for_env_sorted_once askW cfgW
  exact ⟨h.2.2.1 (by decide) "author_name" (by decide), h.2.2.2 cfgW2 (by decide)⟩

/-- Claim C6 (confirmed): in the sequence returned by `all_templates`,
every `BuiltIn`-origin entry precedes every `Local`-origin entry, and two
entries of equal origin appear in lexicographic order of their sort key
(`displayName` when present, else the id). -/
theorem all_templates_ordered :
    ∀ (builtIn locals : List TemplateEntry),
      (all_templates builtIn locals).Pairwise (fun x y =>
        (x.origin = .BuiltIn ∨ y.origin = .Local) ∧
        (x.origin = y.origin → strLe (sortKey x) (sortKey y))) := by
  intro b l
  have hs : List.Sorted entryLe (all_templates b l) := List.sorted_insertionSort entryLe _
  refine hs.imp ?_
  intro x y hxy
  unfold entryLe entryLeB at hxy
  constructor
  · cases hx : x.origin <;> cases hy : y.origin <;> simp [hx, hy] at hxy ⊢
  · intro heq
    cases hx : x.origin <;> cases hy : y.origin <;>
      rw [hx, hy] at hxy heq <;> simp at heq ⊢ <;> exact hxy

/-- Claim C5 (confirmed): the merged view is a union-with-override — its
length is `|builtIn| + |locals| - |shared ids|` — and when an id occurs in
both catalogs the merged view contains exactly one entry with that id,
namely the local entry (so with the local entry's path).  The duplicate-
free-key hypotheses restate the `HashMap` invariant of the two per-origin
catalogs. -/
theorem all_templates_merge :
    ∀ (builtIn locals : List TemplateEntry) (id : String),
      (builtIn.map (fun e => e.config.name)).Nodup →
      (locals.map (fun e => e.config.name)).Nodup →
      ((all_templates builtIn locals).length =
        builtIn.length + locals.length -
          (builtIn.filter (fun e =>
            locals.any (fun l => l.config.name == e.config.name))).length) ∧
      (id ∈ builtIn.map (fun e => e.config.name) →
        id ∈ locals.map (fun e => e.config.name) →
        (all_templates builtIn locals).countP (fun e => e.config.name == id) = 1 ∧
        ∀ e ∈ all_templates builtIn locals, e.config.name = id → e ∈ locals) := by
  intro b l id hb hl
  have hperm : (all_templates b l).Perm (combinedList b l) :=
    List.perm_insertionSort entryLe _
  have hclosed := combinedList_closed_form b l hb hl
  constructor
  · rw [hperm.length_eq, hclosed, List.length_append]
    rw [List.filter_congr (fun e _ => all_bne_eq_not_any_beq e l)]
    have hsplit := length_filter_not_add
      (fun e => l.any (fun l2 => l2.config.name == e.config.name)) b
    omega
  · intro hidb hidl
    obtain ⟨l2, hl2mem, hl2name⟩ := List.mem_map.mp hidl
    constructor
    · rw [hperm.countP_eq, hclosed, List.countP_append]
      have h0 : (b.filter (fun e =>
          l.all (fun l3 => l3.config.name != e.config.name))).countP
            (fun e => e.config.name == id) = 0 := by
        rw [List.countP_eq_zero]
        intro e he
        rw [List.mem_filter] at he
        intro hname
        have hall := List.all_eq_true.mp he.2 l2 hl2mem
        rw [bne_iff_ne] at hall
        exact hall (hl2name.trans (eq_of_beq hname).symm)
      have h1 : l.countP (fun e => e.config.name == id) = 1 := by
        have hcount : (l.map (fun e => e.config.name)).count id = 1 :=
          List.count_eq_one_of_mem hl hidl
        rw [List.count_eq_countP, List.countP_map] at hcount
        exact hcount
      omega
    · intro e he hename
      have he2 : e ∈ combinedList b l := hperm.mem_iff.mp he
      rw [hclosed] at he2
      rcases List.mem_append.mp he2 with hf | hl3
      · exfalso
        rw [List.mem_filter] at hf
        have hall := List.all_eq_true.mp hf.2 l2 hl2mem
        rw [bne_iff_ne] at hall
        exact hall (hl2name.trans hename.symm)
      · exact hl3

/-- Witness for C5: with two built-ins (`rust`, `node`) and one local
override (`rust`), the merged view has exactly one `rust` entry and two
entries overall. -/
theorem all_templates_merge_witness :
    (all_templates [entB1, entB2] [entL1]).countP (fun e => e.config.name == "rust") = 1 ∧
    (all_templates [entB1, entB2] [entL1]).length = 2 := by
  have h := all_templates_merge [entB1, entB2] [entL1] "rust" (by decide) (by decide)
  refine ⟨(h.2 (by decide) (by decide)).1, ?_⟩
  rw [h.1]
  decide

end Hayaku
